/-
Verification of the fastrtc turn-taking engine specification against the
source of `reply_on_over.py`, `credentials.py` and the Gemini demo handler
`app.py`.

The development shallowly embeds the relevant Python functions:

* `over_detected` — the cue-word detector `re.search(r"\bover[.,!?]*$", text.lower())`
  from `ReplyOnOver.over_detected`.  the Python `$` anchor matches at the end of the
  string and also just before a newline that terminates the string, and `\b`
  is a word boundary; both are embedded explicitly.
* `determine_pause` — the chunk-gated detection pass of
  `ReplyOnOver.determine_pause`, with the VAD / resampling / speech-to-text
  capabilities abstracted as parameters (they are external pluggable models),
  instrumented with invocation counters.
* a heap model of handler construction (`ReplyOnOver.__init__` /
  `ReplyOnOver.copy`) that makes the aliasing of the shared `AlgoOptions`
  object and the write to `audio_chunk_duration` observable.
* an allocator model of `GeminiHandler` construction and `copy`, with queue
  contents held in an explicit store, and an event-trace model of
  `GeminiHandler.emit` / `shutdown` / argument arrival.
* the credential fetchers `get_cloudflare_turn_credentials_sync` and
  `get_cloudflare_turn_credentials`, with HTTP and the environment abstracted
  as inputs.
-/
import Mathlib

namespace FastRTC

/-! ## Cue-word detector: embedding of `re.search(r"\bover[.,!?]*$", text.lower())` -/

/-- Word characters of the regex metacharacter `\w` (ASCII fragment). -/
def isWordChar (c : Char) : Bool :=
  c.isAlpha || c.isDigit || c = '_'

/-- The punctuation characters of the character class `[.,!?]`. -/
def isPunctChar (c : Char) : Bool :=
  c = '.' || c = ',' || c = '!' || c = '?'

/-- The literal characters of the cue word `over` in the pattern. -/
def cueWord : List Char := ['o', 'v', 'e', 'r']

/-- Acceptance of `[.,!?]*$` on the remainder `rest` of the input after the
cue word: zero or more punctuation characters followed by the end of the
string, where (as for the Python `$` anchor without `re.MULTILINE`) "end of the
string" also includes the position just before a newline that is the last
character of the string. -/
def cueTail : List Char → Bool
  | [] => true
  | c :: rest => (c = '\n' && rest.isEmpty) || (isPunctChar c && cueTail rest)

/-- Acceptance of `over[.,!?]*$` starting at the current position. -/
def cueHere : List Char → Bool
  | c1 :: c2 :: c3 :: c4 :: rest =>
      (c1 = 'o' && c2 = 'v' && c3 = 'e' && c4 = 'r') && cueTail rest
  | _ => false

/-- Scan of `re.search` for `\bover[.,!?]*$`: try every position, requiring a
word boundary `\b` there.  Since the first character of the cue is a word
character, `\b` holds exactly when the preceding character is absent or is
not a word character; the scan carries that one bit of look-behind. -/
def searchCue (prevIsWord : Bool) : List Char → Bool
  | [] => false
  | c :: rest => (!prevIsWord && cueHere (c :: rest)) || searchCue (isWordChar c) rest

/-- Embedding of `ReplyOnOver.over_detected`:
`bool(re.search(r"\bover[.,!?]*$", text.lower()))`. -/
def over_detected (text : String) : Bool :=
  searchCue false (text.toList.map Char.toLower)

/-! ### Spec-side cue predicate

`specCue` renders the specification sentence: "the trailing words of the
transcript are matched, case-insensitively, against the end-of-turn cue token
(the word `over`), optionally followed by trailing punctuation, anchored at
the end of the string".  It is written from the words of the spec, independently
of the search-based embedding above: strip the trailing punctuation, and what
remains must end in the cue word preceded by a word boundary. -/

/-- Remove the maximal run of trailing `[.,!?]` punctuation. -/
def dropTrailingPunct (s : List Char) : List Char :=
  (s.reverse.dropWhile isPunctChar).reverse

/-- Spec-side predicate on an already lowercased character list: after
removing trailing punctuation the text ends with the standalone word
`over`. -/
def specCueL (s : List Char) : Bool :=
  match (dropTrailingPunct s).reverse with
  | c1 :: c2 :: c3 :: c4 :: rest =>
      (c1 = 'r' && c2 = 'e' && c3 = 'v' && c4 = 'o') &&
        (match rest with
         | [] => true
         | c :: _ => !isWordChar c)
  | _ => false

/-- Spec-side predicate of claim C1, literally: the trailing word of the
transcript is `over`, case-insensitively, optionally followed by trailing
punctuation, anchored at the end of the string. -/
def specCue (text : String) : Bool :=
  specCueL (text.toList.map Char.toLower)

/-- Remove a single final newline, if the string ends in one.  The Python `$` anchor
treats the position before such a newline as an end-of-string position. -/
def stripFinalNewline (s : List Char) : List Char :=
  match s.reverse with
  | c :: rest => if c = '\n' then rest.reverse else (c :: rest).reverse
  | [] => []

/-- Amended spec-side predicate: as `specCue`, but the match may also sit
just before a single newline that terminates the string (Python `$`
semantics). -/
def specCueNL (text : String) : Bool :=
  specCueL (stripFinalNewline (text.toList.map Char.toLower))

/-! ### Equivalence of the search-based embedding and the spec-side predicate -/

/-- Word-boundary condition of `\b` just before the cue word, relative to the
text `pre` preceding the match and the look-behind bit of the scan `prevIsWord`
(used when `pre` is empty). -/
def BoundaryOK (prevIsWord : Bool) (pre : List Char) : Prop :=
  match pre.getLast? with
  | none => prevIsWord = false
  | some c => isWordChar c = false

theorem boundaryOK_cons (pw : Bool) (c : Char) (pre : List Char) :
    BoundaryOK pw (c :: pre) ↔ BoundaryOK (isWordChar c) pre := by
  cases pre with
  | nil => simp [BoundaryOK]
  | cons d rest =>
    unfold BoundaryOK
    rw [List.getLast?_cons_cons]
    cases h : (d :: rest).getLast? with
    | none => simp at h
    | some x => exact Iff.rfl

theorem cueHere_iff (l : List Char) :
    cueHere l = true ↔ ∃ t, l = cueWord ++ t ∧ cueTail t = true := by
  match l with
  | [] => simp [cueHere, cueWord]
  | [c1] => simp [cueHere, cueWord]
  | [c1, c2] => simp [cueHere, cueWord]
  | [c1, c2, c3] => simp [cueHere, cueWord]
  | c1 :: c2 :: c3 :: c4 :: rest =>
    simp only [cueHere, cueWord, Bool.and_eq_true, decide_eq_true_eq, List.cons_append,
      List.nil_append, List.cons.injEq]
    constructor
    · rintro ⟨⟨⟨h1, h2⟩, h3⟩, h4⟩
      exact ⟨rest, ⟨h1.1, h1.2, h2, h3, rfl⟩, h4⟩
    · rintro ⟨t, ⟨h1, h2, h3, h4, h5⟩, h6⟩
      subst h5
      exact ⟨⟨⟨⟨h1, h2⟩, h3⟩, h4⟩, h6⟩

theorem searchCue_iff (s : List Char) : ∀ pw : Bool,
    searchCue pw s = true ↔
      ∃ pre t, s = pre ++ cueWord ++ t ∧ cueTail t = true ∧ BoundaryOK pw pre := by
  induction s with
  | nil =>
    intro pw
    constructor
    · intro h
      simp [searchCue] at h
    · rintro ⟨pre, t, h, -, -⟩
      cases pre <;> simp [cueWord] at h
  | cons c rest ih =>
    intro pw
    rw [searchCue, Bool.or_eq_true, Bool.and_eq_true, Bool.not_eq_true', ih (isWordChar c),
      cueHere_iff]
    constructor
    · rintro (⟨hpw, t, heq, htail⟩ | ⟨pre, t, heq, htail, hb⟩)
      · refine ⟨[], t, by simpa using heq, htail, ?_⟩
        simpa [BoundaryOK] using hpw
      · exact ⟨c :: pre, t, by simp [heq], htail, (boundaryOK_cons pw c pre).mpr hb⟩
    · rintro ⟨pre, t, heq, htail, hb⟩
      cases pre with
      | nil =>
        left
        refine ⟨by simpa [BoundaryOK] using hb, t, by simpa using heq, htail⟩
      | cons c' pre' =>
        right
        have hc : c' = c ∧ rest = pre' ++ cueWord ++ t := by
          constructor
          · have := congrArg List.head? heq
            simpa using this.symm
          · have := congrArg List.tail heq
            simpa using this
        refine ⟨pre', t, hc.2, htail, (boundaryOK_cons pw c pre').mp ?_⟩
        rw [← hc.1]
        exact hb

theorem cueTail_iff (t : List Char) :
    cueTail t = true ↔
      ∃ p n, t = p ++ n ∧ p.all isPunctChar = true ∧ (n = [] ∨ n = ['\n']) := by
  induction t with
  | nil =>
    simp only [cueTail, true_iff]
    exact ⟨[], [], rfl, rfl, Or.inl rfl⟩
  | cons c rest ih =>
    rw [cueTail, Bool.or_eq_true, Bool.and_eq_true, Bool.and_eq_true, decide_eq_true_eq,
      List.isEmpty_iff, ih]
    constructor
    · rintro (⟨hc, hrest⟩ | ⟨hc, p, n, heq, hall, hn⟩)
      · exact ⟨[], ['\n'], by simp [hc, hrest], rfl, Or.inr rfl⟩
      · exact ⟨c :: p, n, by simp [heq], by simp [List.all_cons, hc, hall], hn⟩
    · rintro ⟨p, n, heq, hall, hn⟩
      cases p with
      | nil =>
        rcases hn with hn | hn
        · simp [hn] at heq
        · rw [hn] at heq
          simp only [List.nil_append, List.cons.injEq] at heq
          exact Or.inl ⟨heq.1, heq.2⟩
      | cons p0 p' =>
        simp only [List.cons_append, List.cons.injEq] at heq
        simp only [List.all_cons, Bool.and_eq_true] at hall
        right
        rw [heq.1]
        exact ⟨hall.1, p', n, heq.2, hall.2, hn⟩

theorem dropWhile_append_of_all {α : Type} (q : α → Bool) (a b : List α)
    (h : a.all q = true) : (a ++ b).dropWhile q = b.dropWhile q := by
  induction a with
  | nil => rfl
  | cons x xs ih =>
    simp only [List.all_cons, Bool.and_eq_true] at h
    rw [List.cons_append, List.dropWhile_cons, if_pos h.1]
    exact ih h.2

theorem dropTrailingPunct_append_punct (d p : List Char) (hp : p.all isPunctChar = true) :
    dropTrailingPunct (d ++ p) = dropTrailingPunct d := by
  unfold dropTrailingPunct
  rw [List.reverse_append, dropWhile_append_of_all isPunctChar p.reverse d.reverse
    (by simpa using hp)]

theorem dropTrailingPunct_of_last (s : List Char) (c : Char) (h : s.getLast? = some c)
    (hc : isPunctChar c = false) : dropTrailingPunct s = s := by
  unfold dropTrailingPunct
  obtain ⟨t, ht⟩ : ∃ t, s.reverse = c :: t := by
    cases hrev : s.reverse with
    | nil =>
      rw [← List.head?_reverse, hrev] at h
      simp at h
    | cons d t =>
      rw [← List.head?_reverse, hrev] at h
      simp only [List.head?_cons, Option.some.injEq] at h
      exact ⟨t, by rw [h]⟩
  rw [ht, List.dropWhile_cons, if_neg (by simp [hc]), ← ht, List.reverse_reverse]

theorem specCueL_iff (s : List Char) :
    specCueL s = true ↔
      ∃ pre t, s = pre ++ cueWord ++ t ∧ t.all isPunctChar = true ∧ BoundaryOK false pre := by
  constructor
  · intro h
    unfold specCueL at h
    have hsplit : s = dropTrailingPunct s ++ (s.reverse.takeWhile isPunctChar).reverse := by
      unfold dropTrailingPunct
      rw [← List.reverse_append, List.takeWhile_append_dropWhile, List.reverse_reverse]
    have hpunct : ((s.reverse.takeWhile isPunctChar).reverse).all isPunctChar = true := by
      simp [List.all_reverse]
    revert h
    cases hd : (dropTrailingPunct s).reverse with
    | nil => intro h; simp at h
    | cons c1 l1 =>
      cases l1 with
      | nil => intro h; simp at h
      | cons c2 l2 =>
        cases l2 with
        | nil => intro h; simp at h
        | cons c3 l3 =>
          cases l3 with
          | nil => intro h; simp at h
          | cons c4 rest =>
            intro h
            simp only [Bool.and_eq_true, decide_eq_true_eq] at h
            obtain ⟨⟨⟨⟨h1, h2⟩, h3⟩, h4⟩, h5⟩ := h
            have hdrop : dropTrailingPunct s = rest.reverse ++ cueWord := by
              have := congrArg List.reverse hd
              rw [List.reverse_reverse] at this
              rw [this, h1, h2, h3, h4]
              simp [cueWord]
            refine ⟨rest.reverse, (s.reverse.takeWhile isPunctChar).reverse, ?_, hpunct, ?_⟩
            · nth_rewrite 1 [hsplit]
              rw [hdrop, List.append_assoc]
            · unfold BoundaryOK
              rw [List.getLast?_reverse]
              cases rest with
              | nil => simp
              | cons r0 r' =>
                simp only [List.head?_cons]
                simp only [Bool.not_eq_true'] at h5
                exact h5
  · rintro ⟨pre, t, heq, hall, hb⟩
    have hdrop : dropTrailingPunct s = pre ++ cueWord := by
      rw [heq, dropTrailingPunct_append_punct (pre ++ cueWord) t hall]
      exact dropTrailingPunct_of_last _ 'r' (by simp [cueWord]) (by decide)
    unfold specCueL
    rw [hdrop]
    have hrw : (pre ++ cueWord).reverse = 'r' :: 'e' :: 'v' :: 'o' :: pre.reverse := by
      simp [cueWord]
    rw [hrw]
    cases hp : pre.reverse with
    | nil => simp [hp]
    | cons c l =>
      have hlast : pre.getLast? = some c := by
        rw [← List.head?_reverse, hp, List.head?_cons]
      unfold BoundaryOK at hb
      rw [hlast] at hb
      simp [hp, hb]

theorem stripFinalNewline_append_newline (x : List Char) :
    stripFinalNewline (x ++ ['\n']) = x := by
  simp [stripFinalNewline]

theorem stripFinalNewline_of_last (s : List Char) (c : Char) (h : s.getLast? = some c)
    (hc : c ≠ '\n') : stripFinalNewline s = s := by
  unfold stripFinalNewline
  cases hrev : s.reverse with
  | nil =>
    rw [List.reverse_eq_nil_iff] at hrev
    rw [hrev]
  | cons d t =>
    rw [← List.head?_reverse, hrev] at h
    simp only [List.head?_cons, Option.some.injEq] at h
    subst h
    show (if d = '\n' then t.reverse else (d :: t).reverse) = s
    rw [if_neg hc, ← hrev, List.reverse_reverse]

theorem punct_ne_newline (c : Char) (h : isPunctChar c = true) : c ≠ '\n' := by
  intro hc
  rw [hc] at h
  simp [isPunctChar] at h

/-- Central bridge: the `re.search`-based detector agrees with the spec-side
trailing-cue predicate evaluated after removing a single final newline.  In
other words, the only difference between the behaviour of the code and the
spec-side predicate is the Python treatment of `$` before a final newline. -/
theorem searchCue_eq_specCueL_strip (s : List Char) :
    searchCue false s = specCueL (stripFinalNewline s) := by
  rw [(by decide : ∀ a b : Bool, (a = b) ↔ (a = true ↔ b = true)) _ _]
  rw [searchCue_iff s false, specCueL_iff]
  constructor
  · rintro ⟨pre, t, heq, htail, hb⟩
    obtain ⟨p, n, ht, hp, hn⟩ := (cueTail_iff t).mp htail
    rcases hn with hn | hn
    · rw [hn, List.append_nil] at ht
      rw [ht] at heq
      have hstrip : stripFinalNewline s = s := by
        rcases List.eq_nil_or_concat p with hpn | ⟨q, d, hq⟩
        · refine stripFinalNewline_of_last s 'r' ?_ (by decide)
          rw [heq, hpn]
          simp [cueWord]
        · rw [List.concat_eq_append] at hq
          have hd : isPunctChar d = true := by
            rw [hq, List.all_append] at hp
            simp only [Bool.and_eq_true] at hp
            simpa using hp.2
          refine stripFinalNewline_of_last s d ?_ (punct_ne_newline d hd)
          rw [heq, hq, ← List.append_assoc]
          simp
      rw [hstrip]
      exact ⟨pre, p, heq, hp, hb⟩
    · rw [hn] at ht
      rw [ht] at heq
      have hs : s = (pre ++ cueWord ++ p) ++ ['\n'] := by
        rw [heq]
        simp [List.append_assoc]
      rw [hs, stripFinalNewline_append_newline]
      exact ⟨pre, p, rfl, hp, hb⟩
  · rintro ⟨pre, p, heq, hp, hb⟩
    rcases List.eq_nil_or_concat s with hs | ⟨s', d, hs⟩
    · subst hs
      simp only [stripFinalNewline, List.reverse_nil] at heq
      cases pre <;> simp [cueWord] at heq
    · rw [List.concat_eq_append] at hs
      subst hs
      by_cases hd : d = '\n'
      · subst hd
        rw [stripFinalNewline_append_newline] at heq
        refine ⟨pre, p ++ ['\n'], ?_, ?_, hb⟩
        · rw [heq, List.append_assoc]
        · exact (cueTail_iff _).mpr ⟨p, ['\n'], rfl, hp, Or.inr rfl⟩
      · rw [stripFinalNewline_of_last _ d (List.getLast?_concat s') hd] at heq
        exact ⟨pre, p, heq, (cueTail_iff p).mpr ⟨p, [], by simp, hp, Or.inl rfl⟩, hb⟩

/-- The detector equals the (newline-amended) spec-side predicate on every
transcript. -/
theorem over_detected_eq_specCueNL (text : String) :
    over_detected text = specCueNL text :=
  searchCue_eq_specCueL_strip (text.toList.map Char.toLower)

/-! ## `ReplyOnOver.determine_pause`

The VAD model, the resampler, `audio_to_float32` and the speech-to-text
capability live outside the turn-taking code (they are the pluggable
capabilities of the external-interface section of the spec); they enter the
embedding as opaque function parameters.  `determine_pause` itself is
translated line by line, instrumented with counters for how many times the
VAD and the transcription capability are invoked. -/

/-- Modelled from the spec: `ModelOptions` of `reply_on_pause.py` is not in
the sources; the spec describes it as "immutable parameters passed opaquely
to the VAD capability each invocation", so it is a single opaque value. -/
structure ModelOptions where
  params : Nat
deriving DecidableEq

/-- Modelled from the spec: `AlgoOptions` of `reply_on_pause.py` is not in
the sources; the spec lists a minimum buffered duration before running
detection (`audio_chunk_duration`), a silence-duration threshold and a
speech-probability threshold.  Durations are rationals (seconds). -/
structure AlgoOptions where
  audio_chunk_duration : ℚ := 3 / 5
  started_talking_threshold : ℚ := 1 / 5
  speech_threshold : ℚ := 1 / 10
deriving DecidableEq

/-- Modelled from the spec: `AppState` of `reply_on_pause.py` is not in the
sources; the spec describes the per-connection conversation state as an
accumulated-audio buffer, a finalized-turn audio segment, and
detector-internal scratch fields.  `determine_pause` touches `buffer` and
`stream`; the scratch fields stand for conversation-level state that may
persist. -/
structure AppState where
  buffer : Option (List Int) := none
  stream : Option (List Int) := none
  started_talking : Bool := false
  responding : Bool := false
deriving DecidableEq

/-- A speech segment returned by the VAD capability. -/
structure VadChunk where
  start : ℚ
  stop : ℚ
deriving DecidableEq

/-- The external capabilities `determine_pause` calls:
`audio_to_float32`, `librosa.resample`, `self.model.vad` and
`stt_for_chunks` applied to `self.stt_model`. -/
structure DetectionCaps where
  audio_to_float32 : Nat × List Int → List ℚ
  resample : List ℚ → Nat → Nat → List ℚ
  vad : Nat × List ℚ → ModelOptions → ℚ × List VadChunk
  stt_for_chunks : Nat × List ℚ → List VadChunk → String

/-- Result of one `determine_pause` call: the returned boolean, the state
after the writes of the call, and how often each detection capability ran. -/
structure PauseResult where
  pause : Bool
  state : AppState
  vadCalls : Nat
  sttCalls : Nat
deriving DecidableEq

/-- The transcript the detection pass computes for a buffered chunk: the
buffer converted to float32, resampled to 16 kHz, segmented by the VAD and
transcribed over those segments. -/
def chunkTranscript (mo : ModelOptions) (caps : DetectionCaps)
    (audio : List Int) (sampling_rate : Nat) : String :=
  let audio_f32 := caps.audio_to_float32 (sampling_rate, audio)
  let audio_rs := caps.resample audio_f32 sampling_rate 16000
  let vr := caps.vad (16000, audio_rs) mo
  caps.stt_for_chunks (16000, audio_rs) vr.2

/-- Embedding of `ReplyOnOver.determine_pause`.  `duration = len(audio) /
sampling_rate`; if `duration >= audio_chunk_duration` the detection pass
runs: the buffer is cleared, the chunk is transcribed, and on a cue match
the raw input audio is stored as the finalized stream and `True` is
returned, otherwise the stream is cleared and `False` is returned.  Below
the duration threshold nothing runs and `False` is returned. -/
def determine_pause (algo : AlgoOptions) (mo : ModelOptions) (caps : DetectionCaps)
    (audio : List Int) (sampling_rate : Nat) (state : AppState) : PauseResult :=
  let duration : ℚ := (audio.length : ℚ) / (sampling_rate : ℚ)
  if algo.audio_chunk_duration ≤ duration then
    let text := chunkTranscript mo caps audio sampling_rate
    let state1 : AppState := { state with buffer := none }
    if over_detected text then
      { pause := true, state := { state1 with stream := some audio },
        vadCalls := 1, sttCalls := 1 }
    else
      { pause := false, state := { state1 with stream := none },
        vadCalls := 1, sttCalls := 1 }
  else
    { pause := false, state := state, vadCalls := 0, sttCalls := 0 }

/-! ## Handler construction: `ReplyOnOver.__init__` and `ReplyOnOver.copy`

Python objects are aliased by reference, so the `AlgoOptions` object shared
between a template and its copies is modelled through a small heap: options
objects live at numeric addresses, handlers store the address, and every
field assignment to an options object is recorded as an explicit write
event.  The allocator counter also hands out identities for the per-instance
`AppState` and event objects. -/

/-- Heap of `AlgoOptions` objects, addressed by `Nat`, with an allocation
counter that also provides fresh identities for per-instance state. -/
structure Heap where
  algoMem : Nat → AlgoOptions
  next : Nat

/-- Field assignment to the options object stored at address `a`. -/
def Heap.write (h : Heap) (a : Nat) (v : AlgoOptions) : Heap :=
  { h with algoMem := fun x => if x = a then v else h.algoMem x }

/-- One recorded assignment `<options object at addr>.audio_chunk_duration =
value`, the only options-field assignment occurring in the sources. -/
structure WriteEvent where
  addr : Nat
  value : ℚ
deriving DecidableEq

/-- A constructed `ReplyOnOver` handler.  Configuration shared by reference
(the reply function, the pause-detection model, a startup hook) is held as
opaque identities; `algo_options` is the heap address of the shared options
object; `state_id` and `event_id` are the identities of the
connection-local `AppState` and interruption event created for this
instance. -/
structure ReplyOnOverObj where
  fn : Nat
  startup_fn : Option Nat
  algo_options : Nat
  model_options : ModelOptions
  can_interrupt : Bool
  expected_layout : String
  output_sample_rate : Nat
  output_frame_size : Nat
  input_sample_rate : Nat
  model : Nat
  state_id : Nat
  event_id : Nat
deriving DecidableEq

/-- Result of running the constructor: the object, the heap afterwards, and
the trace of options-field writes the constructor performed. -/
structure MkResult where
  obj : ReplyOnOverObj
  heap : Heap
  writes : List WriteEvent

/-- Embedding of `ReplyOnOver.__init__`.  The `super().__init__` part is
modelled from the spec: `ReplyOnPause`/`AlgoOptions` construction is not in
the sources, and per the spec the base constructor stores the shared
configuration unchanged (allocating a default `AlgoOptions` only when none
is passed) and creates fresh connection-local state.  The line
`self.algo_options.audio_chunk_duration = 3.0` of `ReplyOnOver.__init__` is
then a recorded write to the (possibly shared) options object. -/
def mkReplyOnOver (h : Heap) (fn : Nat) (startup_fn : Option Nat) (algo : Option Nat)
    (mo : ModelOptions) (can_interrupt : Bool) (expected_layout : String)
    (output_sample_rate output_frame_size input_sample_rate : Nat) (model : Nat) :
    MkResult :=
  let alloc : Nat × Heap :=
    match algo with
    | some a => (a, h)
    | none =>
        (h.next,
         { algoMem := fun x => if x = h.next then {} else h.algoMem x,
           next := h.next + 1 })
  let algoAddr := alloc.1
  let h1 := alloc.2
  let stateId := h1.next
  let eventId := h1.next + 1
  let h2 : Heap := { h1 with next := h1.next + 2 }
  let h3 := h2.write algoAddr { h2.algoMem algoAddr with audio_chunk_duration := 3 }
  { obj :=
      { fn := fn, startup_fn := startup_fn, algo_options := algoAddr,
        model_options := mo, can_interrupt := can_interrupt,
        expected_layout := expected_layout,
        output_sample_rate := output_sample_rate,
        output_frame_size := output_frame_size,
        input_sample_rate := input_sample_rate, model := model,
        state_id := stateId, event_id := eventId },
    heap := h3,
    writes := [{ addr := algoAddr, value := 3 }] }

/-- Embedding of `ReplyOnOver.copy`: re-runs the constructor, passing every
piece of shared configuration of the original — including the
`algo_options` reference — so the new instance aliases the same options
object. -/
def ReplyOnOverObj.copy (self : ReplyOnOverObj) (h : Heap) : MkResult :=
  mkReplyOnOver h self.fn self.startup_fn (some self.algo_options)
    self.model_options self.can_interrupt self.expected_layout
    self.output_sample_rate self.output_frame_size self.input_sample_rate
    self.model

/-! ## The Gemini demo handler: construction, `copy`, queue isolation

`GeminiHandler.__init__` creates an input queue, an output queue and a
`quit` event; the base `AsyncStreamHandler` constructor stores the layout
and rates and (modelled from the spec, its source is not included) creates
the per-instance readiness event `args_set`.  Object identities come from
an allocation counter; queue contents are held in an external store mapping
queue identities to their message lists. -/

/-- A constructed `GeminiHandler`: configuration values plus the identities
of its four connection-local synchronization objects. -/
structure GeminiHandler where
  expected_layout : String
  output_sample_rate : Nat
  output_frame_size : Nat
  input_sample_rate : Nat
  args_set_id : Nat
  input_queue : Nat
  output_queue : Nat
  quit_id : Nat
deriving DecidableEq

/-- Embedding of `GeminiHandler.__init__`: stores the configuration
(`expected_layout` has the one literal value `"mono"`, the input rate is
fixed at 16000) and allocates the readiness event, both queues and the
`quit` event fresh.  Returns the handler and the advanced allocator. -/
def mkGeminiHandler (alloc : Nat) (output_sample_rate output_frame_size : Nat) :
    GeminiHandler × Nat :=
  ({ expected_layout := "mono", output_sample_rate := output_sample_rate,
     output_frame_size := output_frame_size, input_sample_rate := 16000,
     args_set_id := alloc, input_queue := alloc + 1, output_queue := alloc + 2,
     quit_id := alloc + 3 },
   alloc + 4)

/-- Embedding of `GeminiHandler.copy`: constructs a brand-new handler with
the output rate and frame size of the template. -/
def GeminiHandler.copy (self : GeminiHandler) (alloc : Nat) : GeminiHandler × Nat :=
  mkGeminiHandler alloc self.output_sample_rate self.output_frame_size

/-- Identities of the connection-local objects a handler owns. -/
def GeminiHandler.ids (h : GeminiHandler) : List Nat :=
  [h.args_set_id, h.input_queue, h.output_queue, h.quit_id]

/-- Store of queue contents, by queue identity. -/
def QueueStore : Type := Nat → List String

/-- Embedding of `GeminiHandler.receive`: the array of the frame is squeezed and
base64-encoded (the encoding is an external helper, passed as `encode`) and
pushed onto the input queue of this handler with `put_nowait`. -/
def GeminiHandler.receive (h : GeminiHandler) (encode : List Int → String)
    (qs : QueueStore) (frame : Nat × List Int) : QueueStore :=
  fun q => if q = h.input_queue then qs q ++ [encode frame.2] else qs q

/-- A sequence of `receive` calls on one handler. -/
def GeminiHandler.runReceives (h : GeminiHandler) (encode : List Int → String)
    (frames : List (Nat × List Int)) (qs : QueueStore) : QueueStore :=
  frames.foldl (fun s f => h.receive encode s f) qs

/-! ## Event-trace model of `emit`, argument arrival and `shutdown`

`emit` runs concurrently with argument arrival (`set_input` on a control
channel), frame production by the generation task, and `shutdown`.  The
relevant interleavings are captured by a step function over events:

* an `emit` call first checks `args_set`; if unset it suspends on
  `wait_for_args` (modelled from the spec: the `AsyncStreamHandler` readiness
  wait is not in the sources; per the spec it blocks until the out-of-band
  arguments arrive); once woken it spawns the generation task and then
  awaits `output_queue.get()`;
* arrival of a frame on the output queue hands it to a waiting `emit`
  directly (the semantics of `put_nowait` waking a blocked `get`);
* `shutdown` runs `quit.set(); args_set.clear(); quit.clear()` — it touches
  the two flags but neither the output queue nor the suspended `get`. -/

/-- What a suspended `emit` call is blocked on. -/
inductive WaitKind
  | onArgs
  | onFrame
deriving DecidableEq

/-- Connection state relevant to `emit`/`shutdown`: the readiness flag, the
`quit` flag, the output-queue contents, the suspension state of the current
`emit` call, how many generation tasks were spawned, and the frames emitted
so far. -/
structure ConnState where
  argsSet : Bool
  quit : Bool
  outputQueue : List Nat
  emitWait : Option WaitKind
  spawned : Nat
  emitted : List Nat
deriving DecidableEq

/-- Fresh connection state: nothing has arrived, no emit is pending. -/
def initConn : ConnState :=
  { argsSet := false, quit := false, outputQueue := [], emitWait := none,
    spawned := 0, emitted := [] }

/-- Events affecting the emit path. -/
inductive Ev
  | emitCall
  | argsArrive
  | frameArrive (f : Nat)
  | shutdownEv
deriving DecidableEq

/-- One step of the connection.  `emitCall` models the framework invoking
`emit()`; `argsArrive` models `set_input` signalling `args_set` (waking a
`wait_for_args` suspension, which then spawns the generation task and moves
on to the queue read); `frameArrive` models the generation task enqueueing
an output frame; `shutdownEv` models `shutdown()`: `quit` is signalled and
immediately cleared and `args_set` is cleared — no suspension of `emit` is
woken. -/
def step (s : ConnState) (e : Ev) : ConnState :=
  match e with
  | .emitCall =>
      if s.emitWait ≠ none then s
      else if s.argsSet = false then { s with emitWait := some .onArgs }
      else
        match s.outputQueue with
        | [] => { s with emitWait := some .onFrame }
        | f :: rest => { s with outputQueue := rest, emitted := s.emitted ++ [f] }
  | .argsArrive =>
      match s.emitWait with
      | some .onArgs =>
          let s1 := { s with argsSet := true, spawned := s.spawned + 1 }
          match s1.outputQueue with
          | [] => { s1 with emitWait := some WaitKind.onFrame }
          | f :: rest =>
              { s1 with
                outputQueue := rest
                emitWait := none
                emitted := s1.emitted ++ [f] }
      | _ => { s with argsSet := true }
  | .frameArrive f =>
      match s.emitWait with
      | some .onFrame => { s with emitWait := none, emitted := s.emitted ++ [f] }
      | _ => { s with outputQueue := s.outputQueue ++ [f] }
  | .shutdownEv => { s with quit := false, argsSet := false }

/-- Run a trace of events from a state. -/
def runTrace (s : ConnState) (tr : List Ev) : ConnState :=
  tr.foldl step s

/-! ## Credential fetchers (`credentials.py`)

The HTTP layer and the process environment are inputs: an `HttpCaps` value
says what response each endpoint would return, and `Env` holds the three
environment variables the functions read.  Parsed JSON bodies are opaque
values.  Raised exceptions become `Except.error` carrying the exception
message. -/

/-- Opaque parsed JSON credential payload. -/
structure CredJson where
  payload : Nat
deriving DecidableEq

/-- An HTTP response: status, success flag (`response.ok` for `requests`,
`response.is_success` for `httpx`), raw body text, parsed body. -/
structure HttpResponse where
  status_code : Nat
  ok : Bool
  text : String
  json : CredJson
deriving DecidableEq

/-- Responses of the two endpoints the Cloudflare fetchers contact:
`managedGet token` is the bearer-token GET to `turn.fastrtc.org`;
`keyedPost keyId apiToken ttl` is the authenticated POST to the Cloudflare
`generate-ice-servers` endpoint with the requested time-to-live as the
JSON body. -/
structure HttpCaps where
  managedGet : String → HttpResponse
  keyedPost : String → String → Int → HttpResponse

/-- The relevant environment variables, each possibly unset. -/
structure Env where
  hf_token : Option String := none
  cf_key_id : Option String := none
  cf_key_api_token : Option String := none

/-- Embedding of `get_cloudflare_turn_credentials_sync`. -/
def get_cloudflare_turn_credentials_sync (http : HttpCaps) (env : Env)
    (turn_key_id turn_key_api_token hf_token : Option String) (ttl : Int) :
    Except String CredJson :=
  let hf_token := match hf_token with
    | none => env.hf_token
    | some t => some t
  match hf_token with
  | some t => Except.ok (http.managedGet t).json
  | none =>
      let keys : Option String × Option String :=
        if turn_key_id.isNone || turn_key_api_token.isNone then
          (env.cf_key_id, env.cf_key_api_token)
        else (turn_key_id, turn_key_api_token)
      match keys.1, keys.2 with
      | some kid, some ktok =>
          let response := http.keyedPost kid ktok ttl
          if response.ok then Except.ok response.json
          else
            Except.error ("Failed to get TURN credentials: " ++
              toString response.status_code ++ " " ++ response.text)
      | _, _ =>
          Except.error
            "HF_TOKEN or CLOUDFLARE_TURN_KEY_ID and CLOUDFLARE_TURN_KEY_API_TOKEN must be set to use get_cloudflare_turn_credentials_sync"

/-- Embedding of the async `get_cloudflare_turn_credentials`.  The one
difference from the sync variant sits in the environment fallback:
`os.getenv("HF_TOKEN", "").strip()` — a default of `""` instead of `None`,
then `.strip()` — so the fallback always produces a string. -/
def get_cloudflare_turn_credentials (http : HttpCaps) (env : Env)
    (turn_key_id turn_key_api_token hf_token : Option String) (ttl : Int) :
    Except String CredJson :=
  let hf_token := match hf_token with
    | none => some ((env.hf_token.getD "").trim)
    | some t => some t
  match hf_token with
  | some t => Except.ok (http.managedGet t).json
  | none =>
      let keys : Option String × Option String :=
        if turn_key_id.isNone || turn_key_api_token.isNone then
          (env.cf_key_id, env.cf_key_api_token)
        else (turn_key_id, turn_key_api_token)
      match keys.1, keys.2 with
      | some kid, some ktok =>
          let response := http.keyedPost kid ktok ttl
          if response.ok then Except.ok response.json
          else
            Except.error ("Failed to get TURN credentials: " ++
              toString response.status_code ++ " " ++ response.text)
      | _, _ =>
          Except.error
            "HF_TOKEN or CLOUDFLARE_TURN_KEY_ID and CLOUDFLARE_TURN_KEY_API_TOKEN must be set to use get_cloudflare_turn_credentials"

example : over_detected "lets meet tomorrow, over." = true := by decide
example : over_detected "lets meet tomorrow." = false := by decide
example : over_detected "OVER!" = true := by decide
example : over_detected "moreover." = false := by decide
example : over_detected "rover" = false := by decide
example : over_detected "over\n" = true := by decide
example : specCue "over\n" = false := by decide
example : specCueNL "over\n" = true := by decide

/-! ## Claim theorems -/

/-- C1, counterexample: the criterion of the claim — cue word plus optional
punctuation anchored at the end of the string — disagrees with the code on
the transcript `"over\n"`.  The Python `$` anchor matches just before a newline that
terminates the string, so `over_detected` signals end-of-turn there, while
the trailing cue is not anchored at the end of the string (the newline is
neither punctuation of the class `[.,!?]` nor the end). -/
theorem claim_C1_counterexample :
    over_detected "over\n" = true ∧ specCue "over\n" = false := by
  constructor
  · decide
  · decide

/-- C1, amended: for every transcript string, the detector signals
end-of-turn (`over_detected` is true) exactly when the trailing word of the
transcript is the cue token `over`, matched case-insensitively,
optionally followed by trailing punctuation, anchored at the end of the
string or immediately before a single newline that terminates the string;
in particular a transcript ending `", over."` yields end-of-turn and the
same transcript without the cue word yields continue. -/
theorem claim_C1 :
    (∀ text : String, over_detected text = specCueNL text) ∧
      over_detected "lets meet tomorrow, over." = true ∧
      over_detected "lets meet tomorrow." = false ∧
      over_detected "Lets meet tomorrow, OVER!" = true :=
  ⟨over_detected_eq_specCueNL, by decide, by decide, by decide⟩

/-- C10: the cue only matches as a standalone word.  If the lowercased
transcript ends in a longer word merely ending in the letters `over` — a
word character immediately precedes the `over`, followed only by trailing
punctuation — then `over_detected` returns false. -/
theorem claim_C10 (text : String) (w : List Char) (c : Char) (p : List Char)
    (heq : text.toList.map Char.toLower = w ++ [c] ++ cueWord ++ p)
    (hword : isWordChar c = true) (hpunct : p.all isPunctChar = true) :
    over_detected text = false := by
  unfold over_detected
  rw [searchCue_eq_specCueL_strip, heq]
  have hstrip :
      stripFinalNewline (w ++ [c] ++ cueWord ++ p) = w ++ [c] ++ cueWord ++ p := by
    rcases List.eq_nil_or_concat p with hpn | ⟨q, d, hq⟩
    · refine stripFinalNewline_of_last _ 'r' ?_ (by decide)
      rw [hpn]
      simp [cueWord]
    · rw [List.concat_eq_append] at hq
      have hd : isPunctChar d = true := by
        rw [hq, List.all_append] at hpunct
        simp only [Bool.and_eq_true] at hpunct
        simpa using hpunct.2
      refine stripFinalNewline_of_last _ d ?_ (punct_ne_newline d hd)
      rw [hq, ← List.append_assoc]
      exact List.getLast?_concat _
  rw [hstrip]
  have hdrop : dropTrailingPunct (w ++ [c] ++ cueWord ++ p) = w ++ [c] ++ cueWord := by
    rw [dropTrailingPunct_append_punct (w ++ [c] ++ cueWord) p hpunct]
    exact dropTrailingPunct_of_last _ 'r' (by simp [cueWord]) (by decide)
  unfold specCueL
  rw [hdrop]
  have hrev : (w ++ [c] ++ cueWord).reverse = 'r' :: 'e' :: 'v' :: 'o' :: (c :: w.reverse) := by
    simp [cueWord]
  rw [hrev]
  simp [hword]

/-- C10 witness: the transcript `"moreover."` decomposes as required and the
detector indeed returns false on it. -/
theorem claim_C10_witness :
    "moreover.".toList.map Char.toLower = ['m', 'o', 'r'] ++ ['e'] ++ cueWord ++ ['.'] ∧
      isWordChar 'e' = true ∧ ['.'].all isPunctChar = true ∧
      over_detected "moreover." = false :=
  ⟨by decide, by decide, by decide,
    claim_C10 "moreover." ['m', 'o', 'r'] 'e' ['.'] (by decide) (by decide) (by decide)⟩

/-- C2: if the buffered audio is strictly shorter than
`audio_chunk_duration`, `determine_pause` performs no detection pass — the
VAD and the transcription run zero times, the state is untouched — and it
returns continue (`false`). -/
theorem claim_C2 (algo : AlgoOptions) (mo : ModelOptions) (caps : DetectionCaps)
    (audio : List Int) (sampling_rate : Nat) (state : AppState)
    (h : (audio.length : ℚ) / (sampling_rate : ℚ) < algo.audio_chunk_duration) :
    determine_pause algo mo caps audio sampling_rate state =
      { pause := false, state := state, vadCalls := 0, sttCalls := 0 } := by
  unfold determine_pause
  rw [if_neg (not_le.mpr h)]

/-- C2 witness: a one-second buffer against a three-second chunk gate. -/
theorem claim_C2_witness :
    ((([0, 0] : List Int).length : ℚ) / ((2 : Nat) : ℚ) <
        ({ audio_chunk_duration := 3 } : AlgoOptions).audio_chunk_duration) ∧
      determine_pause { audio_chunk_duration := 3 } ⟨0⟩
          ⟨fun _ => [], fun a _ _ => a, fun _ _ => (0, []), fun _ _ => ""⟩
          [0, 0] 2 {} =
        { pause := false, state := {}, vadCalls := 0, sttCalls := 0 } :=
  ⟨by norm_num, claim_C2 _ _ _ _ _ _ (by norm_num)⟩

/-- C3: on every evaluated chunk (duration at least `audio_chunk_duration`)
the transient buffer is cleared and each capability runs once; when the cue
matches the transcript the raw input audio — not the VAD-trimmed version —
is attached as the finalized stream and `true` (end-of-turn) is returned;
when it does not match the finalized stream is cleared and `false`
(continue) is returned. -/
theorem claim_C3 (algo : AlgoOptions) (mo : ModelOptions) (caps : DetectionCaps)
    (audio : List Int) (sampling_rate : Nat) (state : AppState)
    (h : algo.audio_chunk_duration ≤ (audio.length : ℚ) / (sampling_rate : ℚ)) :
    determine_pause algo mo caps audio sampling_rate state =
      if over_detected (chunkTranscript mo caps audio sampling_rate) then
        { pause := true, state := { state with buffer := none, stream := some audio },
          vadCalls := 1, sttCalls := 1 }
      else
        { pause := false, state := { state with buffer := none, stream := none },
          vadCalls := 1, sttCalls := 1 } := by
  unfold determine_pause
  rw [if_pos h]

/-- Capabilities whose transcription always reads `"over"`; used to witness
C3 on a concrete evaluated chunk. -/
def sttOverCaps : DetectionCaps :=
  ⟨fun _ => [], fun a _ _ => a, fun _ _ => (0, []), fun _ _ => "over"⟩

/-- C3 witness: a three-second buffer at the three-second gate, on which the
cue matches and the raw audio is attached. -/
theorem claim_C3_witness :
    (({ audio_chunk_duration := 3 } : AlgoOptions).audio_chunk_duration ≤
        (([0, 0, 0, 0, 0, 0] : List Int).length : ℚ) / ((2 : Nat) : ℚ)) ∧
      determine_pause { audio_chunk_duration := 3 } ⟨0⟩ sttOverCaps
          [0, 0, 0, 0, 0, 0] 2 {} =
        (if over_detected (chunkTranscript ⟨0⟩ sttOverCaps [0, 0, 0, 0, 0, 0] 2) then
          { pause := true,
            state := { ({} : AppState) with buffer := none, stream := some [0, 0, 0, 0, 0, 0] },
            vadCalls := 1, sttCalls := 1 }
        else
          { pause := false,
            state := { ({} : AppState) with buffer := none, stream := none },
            vadCalls := 1, sttCalls := 1 }) :=
  ⟨by norm_num, claim_C3 _ _ _ _ _ _ (by norm_num)⟩

/-- Updating `audio_chunk_duration` to the value it already holds leaves the
options object unchanged. -/
theorem algoOptions_update_self (v : AlgoOptions) (h : v.audio_chunk_duration = 3) :
    ({ v with audio_chunk_duration := 3 } : AlgoOptions) = v := by
  cases v
  simp_all

/-- A concrete template construction: empty heap, no options object passed,
so a default one is allocated. -/
def c4Template : MkResult :=
  mkReplyOnOver ⟨fun _ => {}, 0⟩ 0 none none ⟨0⟩ true "mono" 24000 480 48000 0

/-- The first per-connection copy of that template. -/
def c4Copy : MkResult := c4Template.obj.copy c4Template.heap

/-- C4, counterexample: producing an instance with `copy()` does write a
field of the shared template `AlgoOptions` object after template construction —
the re-run constructor executes `self.algo_options.audio_chunk_duration =
3.0` against the shared options object, so the write trace of the copy is not
empty and targets the options address of the template. -/
theorem claim_C4_counterexample :
    c4Copy.writes = [{ addr := c4Template.obj.algo_options, value := 3 }] ∧
      c4Copy.writes ≠ [] := by
  constructor
  · rfl
  · decide

/-- C4, amended: template construction leaves the shared options object with
`audio_chunk_duration = 3`, and every `copy()` re-runs the constructor,
performing exactly one further write — `audio_chunk_duration = 3.0` on the
same shared options object.  That write stores the value the field already
holds, so the options values in the heap are unchanged, the copy aliases the
options object of the template, and all instances cloned from one template
observe an unchanged configuration value. -/
theorem claim_C4 :
    (∀ (h : Heap) (fn : Nat) (st : Option Nat) (algo : Option Nat) (mo : ModelOptions)
        (ci : Bool) (el : String) (osr ofs isr m : Nat),
        ((mkReplyOnOver h fn st algo mo ci el osr ofs isr m).heap.algoMem
            (mkReplyOnOver h fn st algo mo ci el osr ofs isr m).obj.algo_options).audio_chunk_duration =
          3) ∧
      (∀ (h : Heap) (o : ReplyOnOverObj),
        (h.algoMem o.algo_options).audio_chunk_duration = 3 →
        (∀ x, (o.copy h).heap.algoMem x = h.algoMem x) ∧
          (o.copy h).obj.algo_options = o.algo_options ∧
          (o.copy h).writes = [{ addr := o.algo_options, value := 3 }]) := by
  constructor
  · intro h fn st algo mo ci el osr ofs isr m
    cases algo <;> simp [mkReplyOnOver, Heap.write]
  · intro h o hinv
    refine ⟨?_, rfl, rfl⟩
    intro x
    show (if x = o.algo_options then
        { h.algoMem o.algo_options with audio_chunk_duration := 3 } else h.algoMem x) =
      h.algoMem x
    rw [algoOptions_update_self _ hinv]
    by_cases hx : x = o.algo_options
    · rw [if_pos hx, hx]
    · rw [if_neg hx]

/-- C4 witness: the concrete template satisfies the invariant and its copy
changes no observable options value. -/
theorem claim_C4_witness :
    (c4Template.heap.algoMem c4Template.obj.algo_options).audio_chunk_duration = 3 ∧
      ((∀ x, c4Copy.heap.algoMem x = c4Template.heap.algoMem x) ∧
        c4Copy.obj.algo_options = c4Template.obj.algo_options ∧
        c4Copy.writes = [{ addr := c4Template.obj.algo_options, value := 3 }]) :=
  ⟨by norm_num [c4Template, mkReplyOnOver, Heap.write],
    claim_C4.2 c4Template.heap c4Template.obj
      (by norm_num [c4Template, mkReplyOnOver, Heap.write])⟩

/-- If a queue identity is not the input queue of a handler, any sequence of
`receive` calls on that handler leaves the contents of that queue unchanged. -/
theorem runReceives_other (h : GeminiHandler) (encode : List Int → String)
    (frames : List (Nat × List Int)) (qs : QueueStore) (q : Nat)
    (hq : q ≠ h.input_queue) :
    h.runReceives encode frames qs q = qs q := by
  induction frames generalizing qs with
  | nil => rfl
  | cons f fs ih =>
    unfold GeminiHandler.runReceives at ih ⊢
    rw [List.foldl_cons, ih]
    unfold GeminiHandler.receive
    rw [if_neg hq]

/-- C5: an instance produced by `copy()` carries the immutable template
configuration but owns fresh synchronization objects: the identities of its
readiness event, queues and quit event are disjoint from those of the template and
from those of any other copy, and driving one copy with an arbitrary input
sequence never changes the queue contents of the other copy (or of the template).
Likewise `ReplyOnOver.copy` allocates a fresh `AppState` and a fresh event
for the new instance. -/
theorem claim_C5 (a0 osr ofs : Nat) (t h1 h2 : GeminiHandler) (n0 n1 n2 : Nat)
    (ht : mkGeminiHandler a0 osr ofs = (t, n0))
    (hc1 : t.copy n0 = (h1, n1)) (hc2 : t.copy n1 = (h2, n2)) :
    (h1.expected_layout = t.expected_layout ∧
        h1.output_sample_rate = t.output_sample_rate ∧
        h1.output_frame_size = t.output_frame_size ∧
        h1.input_sample_rate = t.input_sample_rate) ∧
      (h2.expected_layout = t.expected_layout ∧
        h2.output_sample_rate = t.output_sample_rate ∧
        h2.output_frame_size = t.output_frame_size ∧
        h2.input_sample_rate = t.input_sample_rate) ∧
      (t.ids.Disjoint h1.ids ∧ t.ids.Disjoint h2.ids ∧ h1.ids.Disjoint h2.ids) ∧
      (∀ (encode : List Int → String) (frames : List (Nat × List Int)) (qs : QueueStore),
        h1.runReceives encode frames qs h2.input_queue = qs h2.input_queue ∧
        h1.runReceives encode frames qs h2.output_queue = qs h2.output_queue ∧
        h1.runReceives encode frames qs t.input_queue = qs t.input_queue ∧
        h2.runReceives encode frames qs h1.input_queue = qs h1.input_queue) ∧
      (∀ (hp : Heap) (o : ReplyOnOverObj),
        o.state_id < hp.next → o.event_id < hp.next →
        (o.copy hp).obj.state_id ≠ o.state_id ∧
          (o.copy hp).obj.event_id ≠ o.event_id ∧
          (o.copy hp).obj.state_id ≠ o.event_id ∧
          (o.copy hp).obj.event_id ≠ o.state_id) := by
  unfold mkGeminiHandler at ht
  unfold GeminiHandler.copy mkGeminiHandler at hc1 hc2
  obtain ⟨rfl, rfl⟩ := Prod.mk.injEq .. |>.mp ht
  obtain ⟨rfl, rfl⟩ := Prod.mk.injEq .. |>.mp hc1
  obtain ⟨rfl, rfl⟩ := Prod.mk.injEq .. |>.mp hc2
  refine ⟨⟨rfl, rfl, rfl, rfl⟩, ⟨rfl, rfl, rfl, rfl⟩, ⟨?_, ?_, ?_⟩, ?_, ?_⟩
  · simp [GeminiHandler.ids, List.Disjoint]
    omega
  · simp [GeminiHandler.ids, List.Disjoint]
    omega
  · simp [GeminiHandler.ids, List.Disjoint]
  · intro encode frames qs
    exact ⟨runReceives_other _ _ _ _ _ (by simp),
      runReceives_other _ _ _ _ _ (by simp),
      runReceives_other _ _ _ _ _ (by simp),
      runReceives_other _ _ _ _ _ (by simp)⟩
  · intro hp o hs he
    unfold ReplyOnOverObj.copy mkReplyOnOver
    refine ⟨?_, ?_, ?_, ?_⟩ <;> simp <;> omega

/-- C5 witness: two copies of a concrete template, with a concrete input
sequence driven into the first copy leaving the input queue of the second copy
untouched, and a concrete `ReplyOnOver` copy getting a fresh state and
event. -/
theorem claim_C5_witness :
    ((mkGeminiHandler 0 24000 480).1.ids.Disjoint
        ((mkGeminiHandler 0 24000 480).1.copy 4).1.ids ∧
      ((mkGeminiHandler 0 24000 480).1.copy 4).1.ids.Disjoint
        ((mkGeminiHandler 0 24000 480).1.copy 8).1.ids) ∧
      (((mkGeminiHandler 0 24000 480).1.copy 4).1.runReceives (fun _ => "")
          [(48000, [1, 2])] (fun _ => [])
          ((mkGeminiHandler 0 24000 480).1.copy 8).1.input_queue =
        (fun _ => ([] : List String))
          ((mkGeminiHandler 0 24000 480).1.copy 8).1.input_queue) ∧
      (c4Template.obj.copy c4Template.heap).obj.state_id ≠ c4Template.obj.state_id := by
  have h := claim_C5 0 24000 480 (mkGeminiHandler 0 24000 480).1
    ((mkGeminiHandler 0 24000 480).1.copy 4).1 ((mkGeminiHandler 0 24000 480).1.copy 8).1
    4 8 12 rfl rfl rfl
  refine ⟨⟨h.2.2.1.1, h.2.2.1.2.2⟩, (h.2.2.2.1 (fun _ => "") [(48000, [1, 2])] (fun _ => [])).1, ?_⟩
  exact (h.2.2.2.2 c4Template.heap c4Template.obj (by decide) (by decide)).1

/-- C6, counterexample: an `emit` call suspended on the output queue is not
woken by `shutdown` signalling `quit`.  Concretely: arguments arrive, `emit`
is called and suspends on the empty output queue, then `shutdown` runs —
and the `emit` call is still suspended on the queue afterwards. -/
theorem claim_C6_counterexample :
    (runTrace initConn [Ev.argsArrive, Ev.emitCall, Ev.shutdownEv]).emitWait =
        some WaitKind.onFrame ∧
      (runTrace initConn [Ev.argsArrive, Ev.emitCall, Ev.shutdownEv]).emitted = [] := by
  constructor
  · decide
  · decide

/-- C6, amended: an `emit` call suspended on the output queue is woken by a
frame arriving — the frame is handed to it and the suspension ends — but it
is not woken by `shutdown`: `shutdown` signals `quit` (and immediately
clears it again, together with `args_set`) without touching the output
queue or the suspended queue read, so the `emit` call remains suspended
after `quit` is signaled. -/
theorem claim_C6 (s : ConnState) (f : Nat) (h : s.emitWait = some WaitKind.onFrame) :
    (step s Ev.shutdownEv).emitWait = some WaitKind.onFrame ∧
      (step s Ev.shutdownEv).outputQueue = s.outputQueue ∧
      (step s (Ev.frameArrive f)).emitWait = none ∧
      (step s (Ev.frameArrive f)).emitted = s.emitted ++ [f] := by
  refine ⟨h, rfl, ?_, ?_⟩
  · simp only [step, h]
  · simp only [step, h]

/-- A connection state whose `emit` call is suspended on the output queue. -/
def c6State : ConnState :=
  { argsSet := true, quit := false, outputQueue := [],
    emitWait := some WaitKind.onFrame, spawned := 1, emitted := [] }

/-- C6 witness: a state suspended on the output queue, across `shutdown` and
a frame arrival. -/
theorem claim_C6_witness :
    c6State.emitWait = some WaitKind.onFrame ∧
      ((step c6State Ev.shutdownEv).emitWait = some WaitKind.onFrame ∧
        (step c6State Ev.shutdownEv).outputQueue = c6State.outputQueue ∧
        (step c6State (Ev.frameArrive 7)).emitWait = none ∧
        (step c6State (Ev.frameArrive 7)).emitted = c6State.emitted ++ [7]) :=
  ⟨rfl, claim_C6 c6State 7 rfl⟩

/-- Invariant of the emit path while no shutdown occurs: at most one
generation task has been spawned, none before the readiness flag is set,
and once the readiness flag is set no `emit` call is suspended on it. -/
def EmitInv (s : ConnState) : Prop :=
  s.spawned ≤ 1 ∧ (s.argsSet = false → s.spawned = 0) ∧
    (s.argsSet = true → s.emitWait ≠ some WaitKind.onArgs)

theorem emitInv_step (s : ConnState) (e : Ev) (h : EmitInv s) (he : e ≠ Ev.shutdownEv) :
    EmitInv (step s e) := by
  obtain ⟨hargs, hquit, oq, ew, sp, em⟩ := s
  obtain ⟨h1, h2, h3⟩ := h
  cases e with
  | shutdownEv => exact absurd rfl he
  | emitCall =>
    rcases ew with _ | k
    · cases hargs <;> rcases oq with _ | ⟨f, rest⟩ <;> simp_all [step, EmitInv]
    · simp_all [step, EmitInv]
  | argsArrive =>
    rcases ew with _ | k
    · simp_all [step, EmitInv]
    · cases k with
      | onArgs =>
        cases hargs
        · rcases oq with _ | ⟨f, rest⟩ <;> simp_all [step, EmitInv]
        · simp_all [step, EmitInv]
      | onFrame => simp_all [step, EmitInv]
  | frameArrive f =>
    rcases ew with _ | k
    · simp_all [step, EmitInv]
    · cases k <;> simp_all [step, EmitInv]

theorem emitInv_run (tr : List Ev) : ∀ s : ConnState, EmitInv s →
    (∀ e ∈ tr, e ≠ Ev.shutdownEv) → EmitInv (runTrace s tr) := by
  induction tr with
  | nil => exact fun s h _ => h
  | cons e es ih =>
    intro s h hall
    unfold runTrace at ih ⊢
    rw [List.foldl_cons]
    exact ih _ (emitInv_step s e h (hall e (by simp)))
      (fun x hx => hall x (by simp [hx]))

theorem no_args_step (s : ConnState) (e : Ev) (hne : e ≠ Ev.argsArrive)
    (ha : s.argsSet = false) :
    (step s e).argsSet = false ∧ (step s e).spawned = s.spawned := by
  obtain ⟨hargs, hquit, oq, ew, sp, em⟩ := s
  cases e with
  | argsArrive => exact absurd rfl hne
  | shutdownEv => exact ⟨rfl, rfl⟩
  | emitCall =>
    rcases ew with _ | k
    · rcases oq with _ | ⟨f, rest⟩ <;> simp_all [step]
    · simp_all [step]
  | frameArrive f =>
    rcases ew with _ | k
    · simp_all [step]
    · cases k <;> simp_all [step]

theorem no_args_run (tr : List Ev) : ∀ s : ConnState,
    (∀ e ∈ tr, e ≠ Ev.argsArrive) → s.argsSet = false →
    (runTrace s tr).argsSet = false ∧ (runTrace s tr).spawned = s.spawned := by
  induction tr with
  | nil => exact fun s _ h => ⟨h, rfl⟩
  | cons e es ih =>
    intro s hall ha
    unfold runTrace at ih ⊢
    rw [List.foldl_cons]
    obtain ⟨h1, h2⟩ := no_args_step s e (hall _ (by simp)) ha
    obtain ⟨g1, g2⟩ := ih (step s e) (fun x hx => hall x (by simp [hx])) h1
    exact ⟨g1, by rw [g2, h2]⟩

/-- C7: along any per-connection event trace (no shutdown), the generation
task is spawned at most once; if the out-of-band arguments never arrive
nothing is ever spawned (the first `emit` blocks on the readiness signal
before any spawn); and once readiness is set no `emit` call is suspended on
readiness — subsequent calls proceed straight to the queue wait. -/
theorem claim_C7 (tr : List Ev) (h : Ev.shutdownEv ∉ tr) :
    (runTrace initConn tr).spawned ≤ 1 ∧
      (Ev.argsArrive ∉ tr → (runTrace initConn tr).spawned = 0) ∧
      ((runTrace initConn tr).argsSet = true →
        (runTrace initConn tr).emitWait ≠ some WaitKind.onArgs) := by
  have hinit : EmitInv initConn := by
    refine ⟨by decide, fun _ => rfl, fun hc => ?_⟩
    simp [initConn] at hc
  have hinv : EmitInv (runTrace initConn tr) :=
    emitInv_run tr initConn hinit (fun e he hx => h (hx ▸ he))
  refine ⟨hinv.1, fun hna => ?_, hinv.2.2⟩
  exact (no_args_run tr initConn (fun e he hx => hna (hx ▸ he)) rfl).2

/-- C7 witness: the canonical trace — `emit` is called, blocks on readiness,
the arguments arrive (spawning the generator exactly once), a frame
arrives. -/
theorem claim_C7_witness :
    Ev.shutdownEv ∉ [Ev.emitCall, Ev.argsArrive, Ev.frameArrive 7] ∧
      ((runTrace initConn [Ev.emitCall, Ev.argsArrive, Ev.frameArrive 7]).spawned ≤ 1 ∧
        (Ev.argsArrive ∉ [Ev.emitCall, Ev.argsArrive, Ev.frameArrive 7] →
          (runTrace initConn [Ev.emitCall, Ev.argsArrive, Ev.frameArrive 7]).spawned = 0) ∧
        ((runTrace initConn [Ev.emitCall, Ev.argsArrive, Ev.frameArrive 7]).argsSet = true →
          (runTrace initConn [Ev.emitCall, Ev.argsArrive, Ev.frameArrive 7]).emitWait ≠
            some WaitKind.onArgs)) :=
  ⟨by decide, claim_C7 _ (by decide)⟩

/-- C8: in the keyed-endpoint (commercial-relay) branch of the synchronous
credential fetch, a non-success response raises an error whose message
contains the original HTTP status code and the response body text
unmodified, and a success response returns the parsed body. -/
theorem claim_C8 (http : HttpCaps) (env : Env) (kid ktok : String) (ttl : Int)
    (henv : env.hf_token = none) :
    ((http.keyedPost kid ktok ttl).ok = false →
      get_cloudflare_turn_credentials_sync http env (some kid) (some ktok) none ttl =
          Except.error ("Failed to get TURN credentials: " ++
            toString (http.keyedPost kid ktok ttl).status_code ++ " " ++
            (http.keyedPost kid ktok ttl).text) ∧
        (∃ a b : String,
          "Failed to get TURN credentials: " ++
              toString (http.keyedPost kid ktok ttl).status_code ++ " " ++
              (http.keyedPost kid ktok ttl).text =
            a ++ toString (http.keyedPost kid ktok ttl).status_code ++ b) ∧
        (∃ a : String,
          "Failed to get TURN credentials: " ++
              toString (http.keyedPost kid ktok ttl).status_code ++ " " ++
              (http.keyedPost kid ktok ttl).text =
            a ++ (http.keyedPost kid ktok ttl).text)) ∧
      ((http.keyedPost kid ktok ttl).ok = true →
        get_cloudflare_turn_credentials_sync http env (some kid) (some ktok) none ttl =
          Except.ok (http.keyedPost kid ktok ttl).json) := by
  unfold get_cloudflare_turn_credentials_sync
  rw [henv]
  constructor
  · intro hok
    refine ⟨by simp [hok], ?_, ?_⟩
    · refine ⟨"Failed to get TURN credentials: ",
        " " ++ (http.keyedPost kid ktok ttl).text, ?_⟩
      rw [String.append_assoc]
    · exact ⟨"Failed to get TURN credentials: " ++
        toString (http.keyedPost kid ktok ttl).status_code ++ " ", rfl⟩
  · intro hok
    simp [hok]

/-- Concrete HTTP layer whose keyed endpoint always fails with 403
`Forbidden`; used to witness C8. -/
def c8Http : HttpCaps :=
  ⟨fun _ => ⟨200, true, "", ⟨0⟩⟩, fun _ _ _ => ⟨403, false, "Forbidden", ⟨0⟩⟩⟩

/-- C8 witness: a concrete forbidden response from the keyed endpoint. -/
theorem claim_C8_witness :
    ({} : Env).hf_token = none ∧ (c8Http.keyedPost "k" "t" 600).ok = false ∧
      (get_cloudflare_turn_credentials_sync c8Http {} (some "k") (some "t") none 600 =
          Except.error ("Failed to get TURN credentials: " ++
            toString (c8Http.keyedPost "k" "t" 600).status_code ++ " " ++
            (c8Http.keyedPost "k" "t" 600).text) ∧
        (∃ a b : String,
          "Failed to get TURN credentials: " ++
              toString (c8Http.keyedPost "k" "t" 600).status_code ++ " " ++
              (c8Http.keyedPost "k" "t" 600).text =
            a ++ toString (c8Http.keyedPost "k" "t" 600).status_code ++ b) ∧
        (∃ a : String,
          "Failed to get TURN credentials: " ++
              toString (c8Http.keyedPost "k" "t" 600).status_code ++ " " ++
              (c8Http.keyedPost "k" "t" 600).text =
            a ++ (c8Http.keyedPost "k" "t" 600).text)) :=
  ⟨rfl, rfl, (claim_C8 c8Http {} "k" "t" 600 rfl).1 rfl⟩

/-- C9: in the async credential fetch, a `None` token argument falls back to
`os.getenv("HF_TOKEN", "").strip()`, which is a string even when the
variable is unset, so the non-`None` check always succeeds: for every
environment the function takes the managed-endpoint bearer-GET path, and no
configuration `ValueError` (indeed no error at all) can be raised — the
keyed-endpoint branch is unreachable with `hf_token=None`. -/
theorem claim_C9 (http : HttpCaps) (env : Env)
    (turn_key_id turn_key_api_token : Option String) (ttl : Int) :
    get_cloudflare_turn_credentials http env turn_key_id turn_key_api_token none ttl =
        Except.ok (http.managedGet ((env.hf_token.getD "").trim)).json ∧
      ∀ msg : String,
        get_cloudflare_turn_credentials http env turn_key_id turn_key_api_token none ttl ≠
          Except.error msg :=
  ⟨rfl, fun _ hc => Except.noConfusion hc⟩

end FastRTC
